import Mathlib

/-!
# A shallow embedding of the sails-disk file-backed datastore (`lib/database.js`)

The embedding models the engine state (`this.data`, `this.schema`,
`this.counters`, the configured `this.filePath` and the write queue) and the
operations `insert`, `update`, `destroy`, `dropCollection`, `createCollection`,
`describe`, `getCollection`, `write` and `read`, together with the constraint
pipeline `uniqueConstraint`, `autoIncrement` and `serializeValues`.

Modelling conventions:
* JavaScript primitive values are `Value` (null, booleans, integer numbers,
  strings); an absent object property (`undefined`) is `Option.none`.
* A record (a JS object) is an association list with distinct keys; property
  lookup is `List.lookup` (first match).
* The external collaborators are parameters: the criteria evaluator's output
  is passed to `update`/`destroy` as the matched index list `indicies` (the
  source's spelling), `JSON.parse` on a value is a parameter
  `parse : Value → Option Value` (`none` models a thrown exception), and the
  JSON decoding of the persisted file is `decode : String → Option Snapshot`.
* `this.data[c]` is `data : String → Option (List Record)` (`none` when the
  collection is unregistered); `this.schema[c]` and `this.counters[c]` are
  total maps defaulting to the empty object, matching how the source reads
  them (`for..in` over `undefined` iterates nothing, `|| {}` defaults); a
  missing or deleted counter is `0`, matching the source's falsy-test
  `if(!this.counters[c][a]) this.counters[c][a] = 0`.
* Disk I/O success is assumed (file creation callbacks succeed); the decode
  step and the existence test of `read` are modelled by `FileView`.
-/

namespace SailsDisk

/-- JavaScript primitive values as stored in records. -/
inductive Value where
  | null
  | bool (b : Bool)
  | num (n : Int)
  | str (s : String)
deriving DecidableEq, Repr

/-- JavaScript truthiness of a primitive value. -/
def Value.truthy : Value → Bool
  | .null => false
  | .bool b => b
  | .num n => n != 0
  | .str s => s != ""

/-- Truthiness of a possibly-absent value (`undefined` is falsy). -/
def truthyOpt : Option Value → Bool
  | none => false
  | some v => v.truthy

/-- The whitespace characters stripped by `ToNumber`. -/
def jsWhitespace (ch : Char) : Bool :=
  ch = ' ' ∨ ch = '\t' ∨ ch = '\n' ∨ ch = '\r'

/-- Accumulate a decimal digit string into a natural number; `none` on any
non-digit. -/
def digitsToNat (acc : Nat) : List Char → Option Nat
  | [] => some acc
  | ch :: rest =>
    if '0' ≤ ch ∧ ch ≤ '9' then
      digitsToNat (acc * 10 + (ch.toNat - Char.toNat '0')) rest
    else none

/-- `ToNumber` on a string, restricted to the model's integer numbers: the
empty (or all-whitespace) string is `0`, an optionally signed decimal
integer literal is its value, anything else is NaN (`none`). -/
def strToNum (s : String) : Option Int :=
  match ((s.data.dropWhile jsWhitespace).reverse.dropWhile
      jsWhitespace).reverse with
  | [] => some 0
  | '+' :: rest =>
    if rest.isEmpty then none else (digitsToNat 0 rest).map Int.ofNat
  | '-' :: rest =>
    if rest.isEmpty then none
    else (digitsToNat 0 rest).map (fun n => -(n : Int))
  | cs => (digitsToNat 0 cs).map Int.ofNat

/-- `ToNumber` on a primitive value (`none` is NaN). -/
def toNumber : Value → Option Int
  | .null => some 0
  | .bool b => some (if b then 1 else 0)
  | .num n => some n
  | .str s => strToNum s

/-- JavaScript strict equality `===` on possibly-absent primitive values. -/
def strictEq : Option Value → Option Value → Bool
  | none, none => true
  | some v, some w => v == w
  | _, _ => false

/-- JavaScript abstract (loose) equality `==` on two present primitives. -/
def looseEqV : Value → Value → Bool
  | .null, .null => true
  | .null, _ => false
  | _, .null => false
  | .num a, .num b => a == b
  | .str a, .str b => a == b
  | v, w =>
    match toNumber v, toNumber w with
    | some a, some b => a == b
    | _, _ => false

/-- JavaScript abstract equality `==` on possibly-absent values
(`undefined == null` holds, `undefined == v` fails for any other `v`). -/
def looseEq : Option Value → Option Value → Bool
  | none, none => true
  | none, some .null => true
  | some .null, none => true
  | some v, some w => looseEqV v w
  | _, _ => false

/-- A record: a JS object as an association list from field name to value. -/
abbrev Rec := List (String × Value)

/-- `r[k] = v` on a JS object: replace the value when the key is present,
append the property otherwise. -/
def setAttr (r : Rec) (k : String) (v : Value) : Rec :=
  if (r.lookup k).isSome then
    r.map (fun p => if p.1 = k then (p.1, v) else p)
  else r ++ [(k, v)]

/-- `_.extend(base, upd)`: shallow merge, keys of `upd` overriding `base`. -/
def extend (base upd : Rec) : Rec :=
  base.map (fun p => (p.1, ((upd.lookup p.1).getD p.2))) ++
    upd.filter (fun p => (base.lookup p.1).isNone)

/-- The fields of an attribute definition the engine consumes:
`unique`, `autoIncrement` and `type` (`"json"` triggers coercion). -/
structure AttrDef where
  unique : Bool := false
  autoIncrement : Bool := false
  type : Option String := none
deriving DecidableEq, Repr

/-- A collection's schema: attribute name to definition, in key order. -/
abbrev Schema := List (String × AttrDef)

/-- The engine state held by a `Database` instance: the configured file path,
`this.data`, `this.schema`, `this.counters` and the pending write queue
(the collection names pushed onto `this.writeQueue`). -/
structure DbState where
  filePath : String
  data : String → Option (List Rec)
  schema : String → Schema
  counters : String → String → Int
  queue : List String

/-- `this.data[c]`, defaulting to no records for an unregistered collection
(a `for..in` over `undefined` iterates nothing). -/
def DbState.getData (st : DbState) (c : String) : List Rec :=
  (st.data c).getD []

/-- Point update of the data map. -/
def setData (m : String → Option (List Rec)) (c : String)
    (v : Option (List Rec)) : String → Option (List Rec) :=
  fun n => if n = c then v else m n

/-- Point update of the counters map. -/
def updCounters (m : String → String → Int) (c a : String) (n : Int) :
    String → String → Int :=
  fun c' a' => if c' = c then (if a' = a then n else m c' a') else m c' a'

/-- The serialized engine snapshot `{ data, schema, counters }` written to and
read from the persisted file. -/
structure Snapshot where
  data : String → Option (List Rec)
  schema : String → Schema
  counters : String → String → Int

/-- The empty snapshot `{ data: {}, schema: {}, counters: {} }`. -/
def emptySnap : Snapshot :=
  ⟨fun _ => none, fun _ => [], fun _ _ => 0⟩

/-- One uniqueness-violation error: the attribute name and the colliding
candidate value interpolated into the `Error` message. -/
structure UniqueError where
  attr : String
  value : Option Value
deriving DecidableEq, Repr

/-- The inner-loop test of `uniqueConstraint`: the candidate carries a
non-`undefined` value for `attrName` and the existing record holds a
strictly-equal (`===`) value. -/
def collidesWith (values : Rec) (attrName : String) (r : Rec) : Bool :=
  match values.lookup attrName with
  | none => false
  | some v => strictEq (some v) (r.lookup attrName)

/-- The inner loop of `uniqueConstraint`: one error per existing record whose
value for `attrName` strictly equals the candidate's. -/
def collisionErrors (values : Rec) (attrName : String) :
    List Rec → List UniqueError
  | [] => []
  | r :: rest =>
    (if collidesWith values attrName r then
      [⟨attrName, values.lookup attrName⟩] else [])
      ++ collisionErrors values attrName rest

/-- The outer loop of `uniqueConstraint` over the schema's attributes. -/
def uniqueErrors (values : Rec) (recs : List Rec) :
    Schema → List UniqueError
  | [] => []
  | (a, d) :: rest =>
    (if d.unique then collisionErrors values a recs else [])
      ++ uniqueErrors values recs rest

/-- `Database.prototype.uniqueConstraint`: collect every violation of a
unique attribute by the candidate against the existing records. -/
def uniqueConstraint (st : DbState) (c : String) (values : Rec) :
    List UniqueError :=
  uniqueErrors values (st.getData c) (st.schema c)

/-- One iteration of the `autoIncrement` loop: skip non-auto-increment
attributes and truthy supplied values, otherwise bump the counter (a missing
counter reads as 0) and assign the new value. -/
def aiStep (c : String) : DbState × Rec → String × AttrDef → DbState × Rec
  | (st, vals), (attrName, attrDef) =>
    if attrDef.autoIncrement = false then (st, vals)
    else if truthyOpt (vals.lookup attrName) then (st, vals)
    else
      let n := st.counters c attrName + 1
      ({ st with counters := updCounters st.counters c attrName n },
        setAttr vals attrName (.num n))

/-- `Database.prototype.autoIncrement`: fold the loop over the collection's
schema attributes in key order. -/
def autoIncrement (st : DbState) (c : String) (values : Rec) :
    DbState × Rec :=
  (st.schema c).foldl (aiStep c) (st, values)

/-- One iteration of the `serializeValues` loop over a key of the candidate:
if the schema declares the key with type `"json"`, attempt `JSON.parse` on the
supplied value and store the parsed value, keeping the raw value when the
parse throws. -/
def serStep (parse : Value → Option Value) (sch : Schema) (vals : Rec)
    (key : String) : Rec :=
  match sch.lookup key with
  | none => vals
  | some attrDef =>
    if attrDef.type = some "json" then
      match vals.lookup key with
      | none => vals
      | some v =>
        match parse v with
        | none => vals
        | some v' => setAttr vals key v'
    else vals

/-- `Database.prototype.serializeValues`: iterate over the candidate's own
keys (snapshotted up front, as `Object.keys(values).forEach` does). -/
def serializeValues (parse : Value → Option Value) (st : DbState)
    (c : String) (values : Rec) : Rec :=
  (values.map Prod.fst).foldl (serStep parse (st.schema c)) values

/-- The errors an operation reports through its callback. -/
inductive DbError where
  | configError
  | collectionNotRegistered
  | uniqueViolations (errs : List UniqueError)
  | uniquenessMulti (attrs : List String)
  | uniquenessDiffs (errs : List UniqueError)
  | parseError
deriving DecidableEq, Repr

/-- `Database.prototype.insert`: config check, uniqueness check (reject with
the full violation list before any mutation), auto-increment (which mutates
the counters), type coercion, registration check, append, enqueue a write. -/
def insert (parse : Value → Option Value) (st : DbState) (c : String)
    (values : Rec) : DbState × Except DbError Rec :=
  if st.filePath = "" then (st, .error .configError)
  else
    let errors := uniqueConstraint st c values
    if errors.length > 0 then (st, .error (.uniqueViolations errors))
    else
      let r1 := autoIncrement st c values
      let v2 := serializeValues parse r1.1 c r1.2
      match r1.1.data c with
      | none => (r1.1, .error .collectionNotRegistered)
      | some recs =>
        ({ r1.1 with
            data := setData r1.1.data c (some (recs ++ [v2])),
            queue := r1.1.queue ++ [c] },
          .ok v2)

/-- Sequential inserts, threading the state and collecting each callback
result in order. -/
def insertList (parse : Value → Option Value) (st : DbState) (c : String) :
    List Rec → DbState × List (Except DbError Rec)
  | [] => (st, [])
  | v :: vs =>
    let r := insert parse st c v
    let rest := insertList parse r.1 c vs
    (rest.1, r.2 :: rest.2)

/-- The attributes being updated that are in the schema and carry a
uniqueness constraint (the source's `uniqueAttrs`). -/
def uniqueAttrsOf (st : DbState) (c : String) (values : Rec) : List String :=
  (values.map Prod.fst).filter (fun a =>
    match (st.schema c).lookup a with
    | some d => d.unique
    | none => false)

/-- The per-attribute errors of `update`'s single-match uniqueness re-check:
one error per unique attribute whose current value loosely differs (`!=`)
from the supplied one. -/
def updateDiffErrors (result : Rec) (values : Rec) :
    List String → List UniqueError
  | [] => []
  | a :: rest =>
    (if looseEq (result.lookup a) (values.lookup a) then []
     else [⟨a, values.lookup a⟩]) ++ updateDiffErrors result values rest

/-- The mutation phase of `update`: merge `values` into each matched record,
collect the merged records, enqueue a write. (When no index matched, the
loop writes nothing and `this.data[c]` is untouched.) -/
def updateApply (st : DbState) (c : String) (indicies : List Nat)
    (values : Rec) : DbState × Except DbError (List Rec) :=
  let folded := indicies.foldl
    (fun (acc : List Rec × List Rec) idx =>
      let merged := extend (acc.1.getD idx []) values
      (acc.1.set idx merged, acc.2 ++ [merged]))
    (st.getData c, [])
  ({ st with
      data := if indicies.isEmpty then st.data
              else setData st.data c (some folded.1),
      queue := st.queue ++ [c] },
    .ok folded.2)

/-- `Database.prototype.update`: the matched index list `indicies` is the
external criteria evaluator's output. When a unique attribute is being set
and at least one record matched: more than one match is rejected outright,
a single match is re-checked value by value with loose inequality. Matched
records are then merged in place and a write is enqueued. -/
def update (st : DbState) (c : String) (indicies : List Nat) (values : Rec) :
    DbState × Except DbError (List Rec) :=
  if st.filePath = "" then (st, .error .configError)
  else
    let uniqueAttrs := uniqueAttrsOf st c values
    if uniqueAttrs.length > 0 ∧ indicies.length > 0 then
      if indicies.length > 1 then
        (st, .error (.uniquenessMulti uniqueAttrs))
      else
        let result := (st.getData c).getD (indicies.headD 0) []
        let errors := updateDiffErrors result values uniqueAttrs
        if errors.length > 0 then (st, .error (.uniquenessDiffs errors))
        else updateApply st c indicies values
    else updateApply st c indicies values

/-- `Database.prototype.destroy`: drop the records at the matched positions
(`_.reject` keeps relative order) and enqueue a write. -/
def destroy (st : DbState) (c : String) (indicies : List Nat) :
    DbState × Except DbError Unit :=
  if st.filePath = "" then (st, .error .configError)
  else
    let kept := ((st.getData c).enum.filter
      (fun p => ¬ p.1 ∈ indicies)).map Prod.snd
    ({ st with data := setData st.data c (some kept),
               queue := st.queue ++ [c] },
      .ok ())

/-- `Database.prototype.write`: serialize the whole of `this.data`,
`this.schema` and `this.counters` to the configured file. The
`collectionName` argument plays no part in the content. -/
def write (st : DbState) (collectionName : String) :
    Except DbError Snapshot :=
  if st.filePath = "" then .error .configError
  else .ok ⟨st.data, st.schema, st.counters⟩

/-- `Database.prototype.dropCollection`: delete the collection's and each
related collection's data and schema (the counters are not touched), then
perform a synchronous write. -/
def dropCollection (st : DbState) (c : String) (relations : List String) :
    DbState × Except DbError Snapshot :=
  if st.filePath = "" then (st, .error .configError)
  else
    let st' : DbState :=
      { st with
          data := fun n => if n = c ∨ n ∈ relations then none else st.data n,
          schema := fun n => if n = c ∨ n ∈ relations then [] else st.schema n }
    (st', write st' c)

/-- `Database.prototype.setCollection`: default the data, keep (or create)
the counters object, install the supplied definition as the schema. -/
def setCollection (st : DbState) (c : String) (definition : Schema) :
    DbState × Except DbError Unit :=
  if st.filePath = "" then (st, .error .configError)
  else
    ({ st with
        data := setData st.data c (some (st.getData c)),
        schema := fun n => if n = c then definition else st.schema n },
      .ok ())

/-- `Database.prototype.createCollection`: register the schema and enqueue a
write. -/
def createCollection (st : DbState) (c : String) (definition : Schema) :
    DbState × Except DbError Schema :=
  let r := setCollection st c definition
  match r.2 with
  | .error e => (r.1, .error e)
  | .ok _ =>
    ({ r.1 with queue := r.1.queue ++ [c] }, .ok (r.1.schema c))

/-- `Database.prototype.getCollection`: the collection's data, schema and
counters, each defaulting to an empty object; its only failure is the
missing-file-path configuration error. -/
def getCollection (st : DbState) (c : String) :
    Except DbError (List Rec × Schema × (String → Int)) :=
  if st.filePath = "" then .error .configError
  else .ok (st.getData c, st.schema c, st.counters c)

/-- `Database.prototype.describe`: the schema when it has attributes,
`null` otherwise. -/
def describe (st : DbState) (c : String) :
    Except DbError (Option Schema) :=
  match getCollection st c with
  | .error e => .error e
  | .ok col => .ok (if col.2.1.length > 0 then some col.2.1 else none)

/-- What `read` finds at the configured path: no file, or a file with the
given raw content. -/
inductive FileView where
  | missing
  | present (content : String)

/-- `Database.prototype.read`: config check, then `fs.exists`. `self.data`
is cleared before either branch. A missing file is created and the empty
state returned; empty content (`if(!data)`) yields the empty state; content
that `JSON.parse` rejects is returned as the error; decoded content is
installed in memory and returned. -/
def read (decode : String → Option Snapshot) (st : DbState)
    (file : FileView) : DbState × Except DbError Snapshot :=
  if st.filePath = "" then (st, .error .configError)
  else
    let st0 : DbState := { st with data := fun _ => none }
    match file with
    | .missing => (st0, .ok emptySnap)
    | .present s =>
      if s = "" then (st0, .ok emptySnap)
      else
        match decode s with
        | none => (st0, .error .parseError)
        | some snap =>
          ({ st0 with data := snap.data, schema := snap.schema,
                      counters := snap.counters },
            .ok snap)

/-- The mutating operations of the public surface, for statements that range
over "any operation". -/
inductive Op where
  | insertOp (c : String) (values : Rec)
  | updateOp (c : String) (indicies : List Nat) (values : Rec)
  | destroyOp (c : String) (indicies : List Nat)
  | dropOp (c : String) (relations : List String)
  | createOp (c : String) (definition : Schema)

/-- The state after running one operation. -/
def applyOp (parse : Value → Option Value) (st : DbState) : Op → DbState
  | .insertOp c values => (insert parse st c values).1
  | .updateOp c indicies values => (update st c indicies values).1
  | .destroyOp c indicies => (destroy st c indicies).1
  | .dropOp c relations => (dropCollection st c relations).1
  | .createOp c definition => (createCollection st c definition).1

/-! ### Concrete instances used by the witnesses and counterexamples -/

/-- A `JSON.parse` stand-in that always throws; where a theorem quantifies
over the parse function, any instance will do. -/
def parseNone : Value → Option Value := fun _ => none

/-- A `JSON.parse` stand-in that parses the string "7" to the number 7 and
throws on everything else. -/
def parseStub : Value → Option Value := fun v =>
  match v with
  | .str s => if s = "7" then some (.num 7) else none
  | _ => none

/-- A users schema with an auto-increment id and a unique email. -/
def exSchemaUsers : Schema :=
  [("id", { autoIncrement := true }), ("email", { unique := true })]

/-- A configured engine with an empty registered users collection. -/
def stBase : DbState :=
  { filePath := "disk.db",
    data := fun n => if n = "users" then some [] else none,
    schema := fun n => if n = "users" then exSchemaUsers else [],
    counters := fun _ _ => 0,
    queue := [] }

/-- The base engine with one stored users record `{email: "a"}`. -/
def stOneUser : DbState :=
  { stBase with
      data := fun n =>
        if n = "users" then some [[("email", Value.str "a")]] else none }

/-- A configured engine whose single users record holds the string "1" for
the unique email attribute. -/
def stStrOne : DbState :=
  { filePath := "disk.db",
    data := fun n =>
      if n = "users" then some [[("email", Value.str "1")]] else none,
    schema := fun n => if n = "users" then [("email", { unique := true })]
      else [],
    counters := fun _ _ => 0,
    queue := [] }

/-- A configured engine with a nonzero auto-increment counter for users.id
and a related profiles collection. -/
def stCounter5 : DbState :=
  { filePath := "disk.db",
    data := fun n =>
      if n = "users" ∨ n = "profiles" then some [] else none,
    schema := fun n => if n = "users" then exSchemaUsers else [],
    counters := fun c a => if c = "users" ∧ a = "id" then 5 else 0,
    queue := [] }

/-- A schema declaring a json-typed attribute and a plain one. -/
def exSchemaJson : Schema :=
  [("meta", { type := some "json" }), ("name", {})]

/-- A configured engine with a registered collection whose schema declares a
json-typed attribute. -/
def stJson : DbState :=
  { filePath := "disk.db",
    data := fun n => if n = "docs" then some [] else none,
    schema := fun n => if n = "docs" then exSchemaJson else [],
    counters := fun _ _ => 0,
    queue := [] }

/-- A decoder stand-in for `JSON.parse` on file contents: rejects everything
(in particular the empty string, which is not valid JSON). -/
def decodeNone : String → Option Snapshot := fun _ => none

/-! ### Association-list lemmas -/

theorem lookup_cons_eq {β : Type} (l : List (String × β)) (k : String)
    (b : β) : ((k, b) :: l).lookup k = some b := by
  simp [List.lookup]

theorem lookup_cons_ne {β : Type} (l : List (String × β)) (a k : String)
    (b : β) (h : a ≠ k) : ((k, b) :: l).lookup a = l.lookup a := by
  have hb : (a == k) = false := beq_eq_false_iff_ne.mpr h
  simp [List.lookup, hb]

theorem lookup_of_mem_nodup {β : Type} {l : List (String × β)} {a : String}
    {d : β} (hnd : (l.map Prod.fst).Nodup) (hmem : (a, d) ∈ l) :
    l.lookup a = some d := by
  induction l with
  | nil => cases hmem
  | cons p rest ih =>
    obtain ⟨pk, pb⟩ := p
    simp only [List.map_cons, List.nodup_cons] at hnd
    rcases List.mem_cons.mp hmem with heq | htl
    · cases heq
      exact lookup_cons_eq rest a d
    · have hak : a ≠ pk := by
        intro h
        subst h
        exact hnd.1 (List.mem_map_of_mem Prod.fst htl)
      rw [lookup_cons_ne rest a pk pb hak]
      exact ih hnd.2 htl

theorem lookup_map_set_eq (r : Rec) (k : String) (v : Value) :
    (r.map (fun p => if p.1 = k then (p.1, v) else p)).lookup k =
      (r.lookup k).map (fun _ => v) := by
  induction r with
  | nil => rfl
  | cons p rest ih =>
    obtain ⟨pk, pv⟩ := p
    by_cases hk : pk = k
    · subst hk
      rw [List.map_cons, if_pos rfl]
      rw [lookup_cons_eq, lookup_cons_eq]
      rfl
    · have hk2 : k ≠ pk := fun h2 => hk h2.symm
      simp only [List.map_cons, if_neg hk]
      rw [lookup_cons_ne _ k pk pv hk2, lookup_cons_ne _ k pk pv hk2]
      exact ih

theorem lookup_map_set_ne (r : Rec) (a k : String) (v : Value)
    (h : a ≠ k) :
    (r.map (fun p => if p.1 = k then (p.1, v) else p)).lookup a =
      r.lookup a := by
  induction r with
  | nil => rfl
  | cons p rest ih =>
    obtain ⟨pk, pv⟩ := p
    by_cases hk : pk = k
    · subst hk
      have hak : a ≠ pk := h
      rw [List.map_cons, if_pos rfl]
      rw [lookup_cons_ne _ a pk v hak, lookup_cons_ne _ a pk pv hak]
      exact ih
    · simp only [List.map_cons, if_neg hk]
      by_cases hak : a = pk
      · subst hak
        rw [lookup_cons_eq, lookup_cons_eq]
      · rw [lookup_cons_ne _ a pk pv hak, lookup_cons_ne _ a pk pv hak]
        exact ih

theorem lookup_append_one_eq (r : Rec) (k : String) (v : Value)
    (hn : r.lookup k = none) : (r ++ [(k, v)]).lookup k = some v := by
  induction r with
  | nil => exact lookup_cons_eq [] k v
  | cons p rest ih =>
    obtain ⟨pk, pv⟩ := p
    by_cases hk : k = pk
    · subst hk
      rw [lookup_cons_eq] at hn
      cases hn
    · rw [lookup_cons_ne _ k pk pv hk] at hn
      rw [List.cons_append, lookup_cons_ne _ k pk pv hk]
      exact ih hn

theorem lookup_append_one_ne (r : Rec) (a k : String) (v : Value)
    (h : a ≠ k) : (r ++ [(k, v)]).lookup a = r.lookup a := by
  induction r with
  | nil =>
    simp only [List.nil_append]
    rw [lookup_cons_ne [] a k v h]
  | cons p rest ih =>
    obtain ⟨pk, pv⟩ := p
    by_cases hak : a = pk
    · subst hak
      rw [List.cons_append, lookup_cons_eq, lookup_cons_eq]
    · rw [List.cons_append, lookup_cons_ne _ a pk pv hak,
        lookup_cons_ne _ a pk pv hak]
      exact ih

theorem lookup_setAttr_self (r : Rec) (k : String) (v : Value) :
    (setAttr r k v).lookup k = some v := by
  unfold setAttr
  cases hr : r.lookup k
  · simp only [Option.isSome_none, Bool.false_eq_true, if_false]
    exact lookup_append_one_eq r k v hr
  · simp only [Option.isSome_some, if_true]
    rw [lookup_map_set_eq, hr]
    rfl

theorem lookup_setAttr_ne (r : Rec) (a k : String) (v : Value)
    (h : a ≠ k) : (setAttr r k v).lookup a = r.lookup a := by
  unfold setAttr
  by_cases hs : (r.lookup k).isSome
  · rw [if_pos hs]
    exact lookup_map_set_ne r a k v h
  · rw [if_neg hs]
    exact lookup_append_one_ne r a k v h

/-! ### Lemmas on the auto-increment fold -/

theorem updCounters_self (m : String → String → Int) (c a : String)
    (n : Int) : updCounters m c a n c a = n := by
  simp [updCounters]

theorem updCounters_ne (m : String → String → Int) (c a : String) (n : Int)
    (c' a' : String) (h : ¬(c' = c ∧ a' = a)) :
    updCounters m c a n c' a' = m c' a' := by
  unfold updCounters
  by_cases hc : c' = c
  · by_cases ha : a' = a
    · exact absurd ⟨hc, ha⟩ h
    · rw [if_pos hc, if_neg ha]
  · rw [if_neg hc]

theorem aiStep_skip_off (c : String) (st : DbState) (vals : Rec)
    (b : String) (e : AttrDef) (h : e.autoIncrement = false) :
    aiStep c (st, vals) (b, e) = (st, vals) := by
  simp [aiStep, h]

theorem aiStep_skip_truthy (c : String) (st : DbState) (vals : Rec)
    (b : String) (e : AttrDef) (h1 : e.autoIncrement = true)
    (h2 : truthyOpt (vals.lookup b) = true) :
    aiStep c (st, vals) (b, e) = (st, vals) := by
  simp [aiStep, h1, h2]

theorem aiStep_bump (c : String) (st : DbState) (vals : Rec)
    (b : String) (e : AttrDef) (h1 : e.autoIncrement = true)
    (h2 : truthyOpt (vals.lookup b) = false) :
    aiStep c (st, vals) (b, e) =
      ({ st with
          counters := updCounters st.counters c b (st.counters c b + 1) },
        setAttr vals b (.num (st.counters c b + 1))) := by
  simp [aiStep, h1, h2]

theorem aiStep_cases (c : String) (st : DbState) (vals : Rec)
    (p : String × AttrDef) :
    aiStep c (st, vals) p = (st, vals) ∨
      (p.2.autoIncrement = true ∧ truthyOpt (vals.lookup p.1) = false ∧
        aiStep c (st, vals) p =
          ({ st with
              counters := updCounters st.counters c p.1
                (st.counters c p.1 + 1) },
            setAttr vals p.1 (.num (st.counters c p.1 + 1)))) := by
  obtain ⟨b, e⟩ := p
  cases hai : e.autoIncrement
  · exact Or.inl (aiStep_skip_off c st vals b e hai)
  · cases htr : truthyOpt (vals.lookup b)
    · exact Or.inr ⟨rfl, rfl, aiStep_bump c st vals b e hai htr⟩
    · exact Or.inl (aiStep_skip_truthy c st vals b e hai htr)

theorem aiFold_fields (c : String) (attrs : Schema) :
    ∀ (st : DbState) (vals : Rec),
      ((attrs.foldl (aiStep c) (st, vals)).1).data = st.data ∧
      ((attrs.foldl (aiStep c) (st, vals)).1).schema = st.schema ∧
      ((attrs.foldl (aiStep c) (st, vals)).1).filePath = st.filePath ∧
      ((attrs.foldl (aiStep c) (st, vals)).1).queue = st.queue := by
  induction attrs with
  | nil => exact fun st vals => ⟨rfl, rfl, rfl, rfl⟩
  | cons p rest ih =>
    intro st vals
    rw [List.foldl_cons]
    rcases aiStep_cases c st vals p with heq | ⟨_, _, heq⟩
    · rw [heq]
      exact ih st vals
    · rw [heq]
      exact ih _ _

theorem aiFold_mono (c : String) (attrs : Schema) :
    ∀ (st : DbState) (vals : Rec) (c' a' : String),
      st.counters c' a' ≤
        ((attrs.foldl (aiStep c) (st, vals)).1).counters c' a' := by
  induction attrs with
  | nil => exact fun st vals c' a' => le_refl _
  | cons p rest ih =>
    intro st vals c' a'
    rw [List.foldl_cons]
    rcases aiStep_cases c st vals p with heq | ⟨_, _, heq⟩
    · rw [heq]
      exact ih st vals c' a'
    · rw [heq]
      refine le_trans ?_ (ih _ _ c' a')
      show st.counters c' a' ≤
        updCounters st.counters c p.1 (st.counters c p.1 + 1) c' a'
      by_cases h : c' = c ∧ a' = p.1
      · obtain ⟨hc, ha⟩ := h
        subst hc; subst ha
        rw [updCounters_self]
        exact le_of_lt (lt_add_one _)
      · rw [updCounters_ne _ _ _ _ _ _ h]

theorem aiFold_notmem (c : String) (attrs : Schema) (a : String) :
    ∀ (st : DbState) (vals : Rec), a ∉ attrs.map Prod.fst →
      ((attrs.foldl (aiStep c) (st, vals)).2.lookup a = vals.lookup a ∧
        ((attrs.foldl (aiStep c) (st, vals)).1).counters c a =
          st.counters c a) := by
  induction attrs with
  | nil => exact fun st vals _ => ⟨rfl, rfl⟩
  | cons p rest ih =>
    intro st vals hnm
    simp only [List.map_cons, List.mem_cons, not_or] at hnm
    rw [List.foldl_cons]
    rcases aiStep_cases c st vals p with heq | ⟨_, _, heq⟩
    · rw [heq]
      exact ih st vals hnm.2
    · rw [heq]
      have hres := ih
        { st with counters := (updCounters st.counters c p.1
            (st.counters c p.1 + 1)) }
        (setAttr vals p.1 (Value.num (st.counters c p.1 + 1))) hnm.2
      refine ⟨?_, ?_⟩
      · rw [hres.1]
        exact lookup_setAttr_ne vals a p.1 _ hnm.1
      · rw [hres.2]
        exact updCounters_ne _ _ _ _ _ _ (fun h2 => hnm.1 h2.2)

theorem aiFold_hit (c : String) (attrs : Schema) (a : String) (d : AttrDef) :
    ∀ (st : DbState) (vals : Rec), (attrs.map Prod.fst).Nodup →
      (a, d) ∈ attrs → d.autoIncrement = true →
      truthyOpt (vals.lookup a) = false →
      ((attrs.foldl (aiStep c) (st, vals)).2.lookup a =
          some (.num (st.counters c a + 1)) ∧
        ((attrs.foldl (aiStep c) (st, vals)).1).counters c a =
          st.counters c a + 1) := by
  induction attrs with
  | nil => exact fun st vals _ hmem _ _ => absurd hmem (List.not_mem_nil _)
  | cons p rest ih =>
    intro st vals hnd hmem hai hfal
    obtain ⟨b, e⟩ := p
    simp only [List.map_cons, List.nodup_cons] at hnd
    rw [List.foldl_cons]
    by_cases hba : b = a
    · subst hba
      have hde : e = d := by
        rcases List.mem_cons.mp hmem with heq | htl
        · cases heq; rfl
        · exact absurd (List.mem_map_of_mem Prod.fst htl) hnd.1
      subst hde
      rw [aiStep_bump c st vals b e hai hfal]
      have hres := aiFold_notmem c rest b
        { st with counters := (updCounters st.counters c b
            (st.counters c b + 1)) }
        (setAttr vals b (Value.num (st.counters c b + 1))) hnd.1
      refine ⟨?_, ?_⟩
      · rw [hres.1]
        exact lookup_setAttr_self vals b _
      · rw [hres.2]
        exact updCounters_self _ _ _ _
    · have htl : (a, d) ∈ rest := by
        rcases List.mem_cons.mp hmem with heq | htl
        · cases heq
          exact absurd rfl hba
        · exact htl
      rcases aiStep_cases c st vals (b, e) with hep | ⟨_, _, hep⟩
      · rw [hep]
        exact ih st vals hnd.2 htl hai hfal
      · rw [hep]
        have hlv : (setAttr vals b
            (Value.num (st.counters c b + 1))).lookup a = vals.lookup a :=
          lookup_setAttr_ne vals a b _ (fun h2 => hba h2.symm)
        have hcv : updCounters st.counters c b (st.counters c b + 1) c a =
            st.counters c a :=
          updCounters_ne _ _ _ _ _ _ (fun h2 => hba h2.2.symm)
        have hres := ih
          { st with counters := (updCounters st.counters c b
              (st.counters c b + 1)) }
          (setAttr vals b (Value.num (st.counters c b + 1))) hnd.2 htl hai
          (by rw [hlv]; exact hfal)
        refine ⟨?_, ?_⟩
        · rw [hres.1]
          show some (Value.num
              (updCounters st.counters c b (st.counters c b + 1) c a + 1)) =
            some (Value.num (st.counters c a + 1))
          rw [hcv]
        · rw [hres.2]
          show updCounters st.counters c b (st.counters c b + 1) c a + 1 =
            st.counters c a + 1
          rw [hcv]

theorem aiFold_miss (c : String) (attrs : Schema) (a : String) (d : AttrDef) :
    ∀ (st : DbState) (vals : Rec), (attrs.map Prod.fst).Nodup →
      (a, d) ∈ attrs →
      (d.autoIncrement = false ∨ truthyOpt (vals.lookup a) = true) →
      ((attrs.foldl (aiStep c) (st, vals)).2.lookup a = vals.lookup a ∧
        ((attrs.foldl (aiStep c) (st, vals)).1).counters c a =
          st.counters c a) := by
  induction attrs with
  | nil => exact fun st vals _ hmem _ => absurd hmem (List.not_mem_nil _)
  | cons p rest ih =>
    intro st vals hnd hmem hdis
    obtain ⟨b, e⟩ := p
    simp only [List.map_cons, List.nodup_cons] at hnd
    rw [List.foldl_cons]
    by_cases hba : b = a
    · subst hba
      have hde : e = d := by
        rcases List.mem_cons.mp hmem with heq | htl
        · cases heq; rfl
        · exact absurd (List.mem_map_of_mem Prod.fst htl) hnd.1
      subst hde
      have hskip : aiStep c (st, vals) (b, e) = (st, vals) := by
        rcases hdis with hoff | htr
        · exact aiStep_skip_off c st vals b e hoff
        · cases hai : e.autoIncrement
          · exact aiStep_skip_off c st vals b e hai
          · exact aiStep_skip_truthy c st vals b e hai htr
      rw [hskip]
      exact aiFold_notmem c rest b st vals hnd.1
    · have htl : (a, d) ∈ rest := by
        rcases List.mem_cons.mp hmem with heq | htl
        · cases heq
          exact absurd rfl hba
        · exact htl
      rcases aiStep_cases c st vals (b, e) with hep | ⟨_, _, hep⟩
      · rw [hep]
        exact ih st vals hnd.2 htl hdis
      · rw [hep]
        have hlv : (setAttr vals b
            (Value.num (st.counters c b + 1))).lookup a = vals.lookup a :=
          lookup_setAttr_ne vals a b _ (fun h2 => hba h2.symm)
        have hcv : updCounters st.counters c b (st.counters c b + 1) c a =
            st.counters c a :=
          updCounters_ne _ _ _ _ _ _ (fun h2 => hba h2.2.symm)
        have hdis2 : d.autoIncrement = false ∨
            truthyOpt ((setAttr vals b
              (Value.num (st.counters c b + 1))).lookup a) = true := by
          rcases hdis with hoff | htr
          · exact Or.inl hoff
          · exact Or.inr (by rw [hlv]; exact htr)
        have hres := ih
          { st with counters := (updCounters st.counters c b
              (st.counters c b + 1)) }
          (setAttr vals b (Value.num (st.counters c b + 1))) hnd.2 htl hdis2
        refine ⟨?_, ?_⟩
        · rw [hres.1, hlv]
        · rw [hres.2]
          exact hcv

/-! ### Lemmas on the serialization (type-coercion) fold -/

theorem serStep_lookup_ne (parse : Value → Option Value) (sch : Schema)
    (vals : Rec) (k a : String) (h : a ≠ k) :
    (serStep parse sch vals k).lookup a = vals.lookup a := by
  unfold serStep
  cases hsk : sch.lookup k with
  | none => rfl
  | some d =>
    dsimp only
    by_cases ht : d.type = some "json"
    · rw [if_pos ht]
      cases hv : vals.lookup k with
      | none => rfl
      | some v =>
        dsimp only
        cases hp : parse v with
        | none => rfl
        | some w => exact lookup_setAttr_ne vals a k w h
    · rw [if_neg ht]

theorem serStep_nonjson (parse : Value → Option Value) (sch : Schema)
    (vals : Rec) (k : String) (d : AttrDef) (hsk : sch.lookup k = some d)
    (ht : d.type ≠ some "json") : serStep parse sch vals k = vals := by
  unfold serStep
  rw [hsk]
  exact if_neg ht

theorem serFold_notmem (parse : Value → Option Value) (sch : Schema)
    (keys : List String) :
    ∀ (vals : Rec) (a : String), a ∉ keys →
      (keys.foldl (serStep parse sch) vals).lookup a = vals.lookup a := by
  induction keys with
  | nil => exact fun vals a _ => rfl
  | cons k rest ih =>
    intro vals a hnm
    simp only [List.mem_cons, not_or] at hnm
    rw [List.foldl_cons]
    rw [ih (serStep parse sch vals k) a hnm.2]
    exact serStep_lookup_ne parse sch vals k a hnm.1

theorem serFold_nonjson (parse : Value → Option Value) (sch : Schema)
    (keys : List String) :
    ∀ (vals : Rec) (a : String) (d : AttrDef), sch.lookup a = some d →
      d.type ≠ some "json" →
      (keys.foldl (serStep parse sch) vals).lookup a = vals.lookup a := by
  induction keys with
  | nil => exact fun vals a d _ _ => rfl
  | cons k rest ih =>
    intro vals a d hsk ht
    rw [List.foldl_cons]
    by_cases hk : k = a
    · subst hk
      rw [serStep_nonjson parse sch vals k d hsk ht]
      exact ih vals k d hsk ht
    · rw [ih (serStep parse sch vals k) a d hsk ht]
      exact serStep_lookup_ne parse sch vals k a (fun h2 => hk h2.symm)

theorem serFold_nodecl (parse : Value → Option Value) (sch : Schema)
    (keys : List String) :
    ∀ (vals : Rec) (a : String), sch.lookup a = none →
      (keys.foldl (serStep parse sch) vals).lookup a = vals.lookup a := by
  induction keys with
  | nil => exact fun vals a _ => rfl
  | cons k rest ih =>
    intro vals a hsk
    rw [List.foldl_cons]
    by_cases hk : k = a
    · subst hk
      have hstep : serStep parse sch vals k = vals := by
        unfold serStep
        rw [hsk]
      rw [hstep]
      exact ih vals k hsk
    · rw [ih (serStep parse sch vals k) a hsk]
      exact serStep_lookup_ne parse sch vals k a (fun h2 => hk h2.symm)

theorem serFold_json (parse : Value → Option Value) (sch : Schema)
    (keys : List String) :
    ∀ (vals : Rec) (a : String) (d : AttrDef) (v : Value),
      keys.Nodup → a ∈ keys → sch.lookup a = some d →
      d.type = some "json" → vals.lookup a = some v →
      (keys.foldl (serStep parse sch) vals).lookup a =
        (match parse v with
          | some w => some w
          | none => some v) := by
  induction keys with
  | nil => exact fun vals a d v _ hmem _ _ _ => absurd hmem (List.not_mem_nil _)
  | cons k rest ih =>
    intro vals a d v hnd hmem hsk ht hv
    simp only [List.nodup_cons] at hnd
    rw [List.foldl_cons]
    by_cases hk : k = a
    · subst hk
      have hstep : serStep parse sch vals k =
          (match parse v with
            | some w => setAttr vals k w
            | none => vals) := by
        unfold serStep
        rw [hsk]
        dsimp only
        rw [if_pos ht, hv]
        dsimp only
        cases parse v <;> rfl
      rw [hstep]
      cases hp : parse v with
      | none =>
        rw [serFold_notmem parse sch rest vals k hnd.1]
        exact hv
      | some w =>
        rw [serFold_notmem parse sch rest (setAttr vals k w) k hnd.1]
        exact lookup_setAttr_self vals k w
    · have hmem2 : a ∈ rest := by
        rcases List.mem_cons.mp hmem with heq | htl
        · exact absurd heq.symm hk
        · exact htl
      have hv2 : (serStep parse sch vals k).lookup a = some v := by
        rw [serStep_lookup_ne parse sch vals k a (fun h2 => hk h2.symm)]
        exact hv
      exact ih (serStep parse sch vals k) a d v hnd.2 hmem2 hsk ht hv2

/-! ### Inversion lemmas for insert -/

theorem autoIncrement_fields (st : DbState) (c : String) (values : Rec) :
    (autoIncrement st c values).1.data = st.data ∧
    (autoIncrement st c values).1.schema = st.schema ∧
    (autoIncrement st c values).1.filePath = st.filePath ∧
    (autoIncrement st c values).1.queue = st.queue :=
  aiFold_fields c (st.schema c) st values

theorem insert_ok_inv (parse : Value → Option Value) (st : DbState)
    (c : String) (v : Rec) (st2 : DbState) (r : Rec)
    (h : insert parse st c v = (st2, .ok r)) :
    ∃ recs, st.data c = some recs ∧
      r = serializeValues parse (autoIncrement st c v).1 c
        (autoIncrement st c v).2 ∧
      st2 = { (autoIncrement st c v).1 with
                data := setData (autoIncrement st c v).1.data c
                  (some (recs ++ [r])),
                queue := (autoIncrement st c v).1.queue ++ [c] } := by
  unfold insert at h
  by_cases hfp : st.filePath = ""
  · rw [if_pos hfp] at h
    simp [Prod.ext_iff] at h
  · rw [if_neg hfp] at h
    by_cases herr : (uniqueConstraint st c v).length > 0
    · rw [if_pos herr] at h
      simp [Prod.ext_iff] at h
    · rw [if_neg herr] at h
      dsimp only at h
      cases hd : (autoIncrement st c v).1.data c with
      | none =>
        rw [hd] at h
        simp [Prod.ext_iff] at h
      | some recs =>
        rw [hd] at h
        dsimp only at h
        rw [Prod.mk.injEq] at h
        obtain ⟨h1, h2⟩ := h
        have hr : serializeValues parse (autoIncrement st c v).1 c
            (autoIncrement st c v).2 = r := (Except.ok.injEq _ _).mp h2
        refine ⟨recs, ?_, hr.symm, ?_⟩
        · rw [← (autoIncrement_fields st c v).1]
          exact hd
        · dsimp only
          rw [← h1, hr]

/-! ### Lemmas on the uniqueness-constraint scan -/

theorem mem_collisionErrors (values : Rec) (a : String) (recs : List Rec)
    (r : Rec) (hr : r ∈ recs) (hc : collidesWith values a r = true) :
    (⟨a, values.lookup a⟩ : UniqueError) ∈ collisionErrors values a recs := by
  induction recs with
  | nil => cases hr
  | cons q rest ih =>
    rcases List.mem_cons.mp hr with heq | htl
    · subst heq
      show (⟨a, values.lookup a⟩ : UniqueError) ∈
        (if collidesWith values a r then
          [⟨a, values.lookup a⟩] else []) ++ collisionErrors values a rest
      rw [if_pos hc]
      exact List.mem_append_left _ (List.mem_singleton.mpr rfl)
    · exact List.mem_append_right _ (ih htl)

theorem length_collisionErrors (values : Rec) (a : String)
    (recs : List Rec) : (collisionErrors values a recs).length =
      recs.countP (collidesWith values a) := by
  induction recs with
  | nil => rfl
  | cons q rest ih =>
    show ((if collidesWith values a q then
        [(⟨a, values.lookup a⟩ : UniqueError)] else []) ++
        collisionErrors values a rest).length =
      (q :: rest).countP (collidesWith values a)
    rw [List.length_append, ih, List.countP_cons]
    cases h : collidesWith values a q
    · simp
    · simp
      omega

theorem mem_uniqueErrors (values : Rec) (recs : List Rec) (attrs : Schema)
    (a : String) (d : AttrDef) (v : Value) (r : Rec)
    (hmem : (a, d) ∈ attrs) (hu : d.unique = true)
    (hv : values.lookup a = some v) (hr : r ∈ recs)
    (hc : strictEq (some v) (r.lookup a) = true) :
    (⟨a, some v⟩ : UniqueError) ∈ uniqueErrors values recs attrs := by
  induction attrs with
  | nil => cases hmem
  | cons p rest ih =>
    obtain ⟨b, e⟩ := p
    rcases List.mem_cons.mp hmem with heq | htl
    · cases heq
      show (⟨a, some v⟩ : UniqueError) ∈
        (if d.unique then collisionErrors values a recs else []) ++
          uniqueErrors values recs rest
      rw [if_pos hu]
      have hcol : collidesWith values a r = true := by
        unfold collidesWith
        rw [hv]
        exact hc
      have := mem_collisionErrors values a recs r hr hcol
      rw [hv] at this
      exact List.mem_append_left _ this
    · exact List.mem_append_right _ (ih htl)

theorem length_uniqueErrors (values : Rec) (recs : List Rec)
    (attrs : Schema) : (uniqueErrors values recs attrs).length =
      (attrs.map (fun p => if p.2.unique then
        recs.countP (collidesWith values p.1) else 0)).sum := by
  induction attrs with
  | nil => rfl
  | cons p rest ih =>
    obtain ⟨b, e⟩ := p
    show ((if e.unique then collisionErrors values b recs else []) ++
        uniqueErrors values recs rest).length = _
    rw [List.length_append, ih, List.map_cons, List.sum_cons]
    cases h : e.unique
    · simp
    · simp [length_collisionErrors]

/-! ### The claims -/

/-- C1: for every registered collection and candidate record carrying a
value for a unique attribute that an existing record of the collection
already holds (by the engine's strict comparison), `insert` rejects the
candidate with the full violation list of `uniqueConstraint` — which is
nonempty, contains the colliding attribute's error, and has exactly one
entry per colliding (unique attribute, existing record) pair, collected
rather than short-circuited — and the state, in particular the collection's
record sequence and length, is unchanged. -/
theorem C1_insert_rejects_colliding_candidate
    (parse : Value → Option Value) (st : DbState) (c : String) (values : Rec)
    (a : String) (d : AttrDef) (v : Value) (r : Rec)
    (hfp : st.filePath ≠ "")
    (hmem : (a, d) ∈ st.schema c) (hu : d.unique = true)
    (hv : values.lookup a = some v)
    (hr : r ∈ st.getData c)
    (hc : strictEq (some v) (r.lookup a) = true) :
    insert parse st c values =
      (st, .error (.uniqueViolations (uniqueConstraint st c values))) ∧
    uniqueConstraint st c values ≠ [] ∧
    (⟨a, some v⟩ : UniqueError) ∈ uniqueConstraint st c values ∧
    (uniqueConstraint st c values).length =
      ((st.schema c).map (fun p => if p.2.unique then
        (st.getData c).countP (collidesWith values p.1) else 0)).sum ∧
    (insert parse st c values).1 = st := by
  have hmem2 : (⟨a, some v⟩ : UniqueError) ∈ uniqueConstraint st c values :=
    mem_uniqueErrors values (st.getData c) (st.schema c) a d v r hmem hu hv
      hr hc
  have hne : uniqueConstraint st c values ≠ [] :=
    List.ne_nil_of_mem hmem2
  have hlen : (uniqueConstraint st c values).length > 0 :=
    List.length_pos.mpr hne
  have heq : insert parse st c values =
      (st, .error (.uniqueViolations (uniqueConstraint st c values))) := by
    unfold insert
    rw [if_neg hfp, if_pos hlen]
  refine ⟨heq, hne, hmem2,
    length_uniqueErrors values (st.getData c) (st.schema c), ?_⟩
  rw [heq]

/-- Witness for C1: inserting a second `{email: "a"}` into a collection
already holding one leaves the state untouched. -/
theorem C1_witness :
    (insert parseNone stOneUser "users" [("email", Value.str "a")]).1 =
      stOneUser :=
  (C1_insert_rejects_colliding_candidate parseNone stOneUser "users"
    [("email", Value.str "a")] "email" ⟨true, false, none⟩ (Value.str "a")
    [("email", Value.str "a")] (by decide) (by decide) (by decide)
    (by decide) (by decide) (by decide)).2.2.2.2

/-- C5: every persistence write serializes the entire engine state — the
data, schema and counters of all collections — to the configured file, and
the serialized content is a function of the engine state alone, independent
of which collection name triggered the write. -/
theorem C5_write_serializes_whole_state (st : DbState) (c c2 : String)
    (hfp : st.filePath ≠ "") :
    write st c = write st c2 ∧
    ∃ s : Snapshot, write st c = .ok s ∧
      (∀ n, s.data n = st.data n) ∧
      (∀ n, s.schema n = st.schema n) ∧
      (∀ n a, s.counters n a = st.counters n a) := by
  refine ⟨rfl, ⟨⟨st.data, st.schema, st.counters⟩, ?_,
    fun n => rfl, fun n => rfl, fun n a => rfl⟩⟩
  unfold write
  rw [if_neg hfp]

/-- Witness for C5: the serialized content does not depend on the triggering
collection name. -/
theorem C5_witness : write stBase "users" = write stBase "profiles" :=
  (C5_write_serializes_whole_state stBase "users" "profiles" (by decide)).1

/-- Counterexample to C6: the claim says dropping a collection resets
(removes) its auto-increment counters, but `dropCollection` deletes only the
data and schema; here the users.id counter is 5 before the drop and still 5
(not reset to the missing-counter value 0) after it, even though the users
data and schema were removed. -/
theorem C6_counterexample :
    (dropCollection stCounter5 "users" ["profiles"]).1.counters "users"
        "id" = 5 ∧
    (5 : Int) ≠ 0 ∧
    (dropCollection stCounter5 "users" ["profiles"]).1.data "users" =
      none ∧
    (dropCollection stCounter5 "users" ["profiles"]).1.schema "users" =
      [] := by
  exact ⟨rfl, by decide, rfl, rfl⟩

/-- C6 (amended): `dropCollection(name, related)` removes the named
collection's and each related collection's data and schema, leaves every
other collection's data and schema unchanged, and leaves the auto-increment
counters of every collection — including the dropped ones — unchanged
(counters are never reset, not even by a drop). -/
theorem C6_drop_removes_data_schema_keeps_counters
    (st : DbState) (c : String) (rels : List String)
    (hfp : st.filePath ≠ "") :
    (dropCollection st c rels).1.data c = none ∧
    (dropCollection st c rels).1.schema c = [] ∧
    (∀ n, n ∈ rels → (dropCollection st c rels).1.data n = none ∧
      (dropCollection st c rels).1.schema n = []) ∧
    (∀ n, n ≠ c → n ∉ rels →
      (dropCollection st c rels).1.data n = st.data n ∧
      (dropCollection st c rels).1.schema n = st.schema n) ∧
    (dropCollection st c rels).1.counters = st.counters ∧
    (dropCollection st c rels).1.queue = st.queue := by
  have h : (dropCollection st c rels).1 =
      { st with
          data := fun n => if n = c ∨ n ∈ rels then none else st.data n,
          schema := fun n => if n = c ∨ n ∈ rels then [] else st.schema n }
      := by
    unfold dropCollection
    rw [if_neg hfp]
  rw [h]
  refine ⟨?_, ?_, fun n hn => ⟨?_, ?_⟩, fun n hnc hnr => ⟨?_, ?_⟩, rfl, rfl⟩
  · exact if_pos (Or.inl rfl)
  · exact if_pos (Or.inl rfl)
  · exact if_pos (Or.inr hn)
  · exact if_pos (Or.inr hn)
  · exact if_neg (fun h2 => h2.elim hnc hnr)
  · exact if_neg (fun h2 => h2.elim hnc hnr)

/-- Witness for C6 (amended): dropping users with related profiles removes
both data maps and leaves the counters map untouched. -/
theorem C6_witness :
    (dropCollection stCounter5 "users" ["profiles"]).1.data "users" =
      none ∧
    (dropCollection stCounter5 "users" ["profiles"]).1.counters =
      stCounter5.counters :=
  ⟨(C6_drop_removes_data_schema_keeps_counters stCounter5 "users"
      ["profiles"] (by decide)).1,
    (C6_drop_removes_data_schema_keeps_counters stCounter5 "users"
      ["profiles"] (by decide)).2.2.2.2.1⟩

/-- C10: `describe` fails only with the missing-file-path configuration
error; on a configured engine it succeeds for every collection name, and
returns the null schema for every name whose schema has no attributes — in
particular any name that was never registered, since a missing collection
defaults to empty data, schema and counters objects in `getCollection`. -/
theorem C10_describe_never_fails_for_unknown (st : DbState) (c : String) :
    (st.filePath ≠ "" →
      describe st c =
        .ok (if (st.schema c).length > 0 then some (st.schema c)
          else none) ∧
      ((st.schema c).length = 0 → describe st c = .ok none) ∧
      getCollection st c =
        .ok (st.getData c, st.schema c, st.counters c)) ∧
    (∀ e, describe st c = .error e →
      st.filePath = "" ∧ e = .configError) := by
  constructor
  · intro hfp
    have hg : getCollection st c =
        .ok (st.getData c, st.schema c, st.counters c) := by
      unfold getCollection
      rw [if_neg hfp]
    have hd : describe st c =
        .ok (if (st.schema c).length > 0 then some (st.schema c)
          else none) := by
      unfold describe
      rw [hg]
    refine ⟨hd, ?_, hg⟩
    intro hz
    rw [hd, hz]
    rfl
  · intro e he
    by_cases hfp : st.filePath = ""
    · refine ⟨hfp, ?_⟩
      unfold describe getCollection at he
      rw [if_pos hfp] at he
      exact ((Except.error.injEq _ _).mp he).symm
    · exfalso
      unfold describe getCollection at he
      rw [if_neg hfp] at he
      dsimp only at he
      cases he

/-- Witness for C10: describing a never-registered collection on a
configured engine yields a null schema, not an error. -/
theorem C10_witness : describe stBase "ghost" = .ok none :=
  ((C10_describe_never_fails_for_unknown stBase "ghost").1
    (by decide)).2.1 (by decide)

/-- Counterexample to C4: an existing file whose content is the empty
string fails to decode (the decoder rejects "", as `JSON.parse` does), yet
`read` returns the empty state with no error instead of surfacing a decode
failure — the claimed behavior holds only for nonempty undecodable
content. -/
theorem C4_counterexample :
    decodeNone "" = none ∧
    (read decodeNone stBase (.present "")).2 = .ok emptySnap := by
  exact ⟨rfl, rfl⟩

/-- C4 (amended): on a configured engine, `read` on a missing file creates
it and returns the empty state without error; on an existing file with
NONEMPTY content that fails to decode it returns the decode failure as an
error — not an ok result, and the in-memory schema and counters are left in
place (only the data map is cleared, which `read` does up front on every
path); on an existing file with empty content it returns the empty state
without consulting the decoder; and on decodable content it installs and
returns the decoded snapshot. -/
theorem C4_read_parse_failure_surfaced
    (decode : String → Option Snapshot) (st : DbState)
    (hfp : st.filePath ≠ "") :
    (read decode st .missing =
      ({ st with data := fun _ => none }, .ok emptySnap)) ∧
    (∀ s, s ≠ "" → decode s = none →
      read decode st (.present s) =
        ({ st with data := fun _ => none }, .error .parseError)) ∧
    (read decode st (.present "") =
      ({ st with data := fun _ => none }, .ok emptySnap)) ∧
    (∀ s snap, s ≠ "" → decode s = some snap →
      read decode st (.present s) =
        ({ st with
            data := snap.data,
            schema := snap.schema,
            counters := snap.counters }, .ok snap)) := by
  refine ⟨?_, ?_, ?_, ?_⟩
  · unfold read
    rw [if_neg hfp]
  · intro s hs hd
    unfold read
    rw [if_neg hfp]
    dsimp only
    rw [if_neg hs, hd]
  · unfold read
    rw [if_neg hfp]
    dsimp only
    rw [if_pos rfl]
  · intro s snap hs hd
    unfold read
    rw [if_neg hfp]
    dsimp only
    rw [if_neg hs, hd]

/-- Witness for C4 (amended): a nonempty undecodable file surfaces the
parse error. -/
theorem C4_witness :
    read decodeNone stBase (.present "not json") =
      ({ stBase with data := fun _ => none }, .error .parseError) :=
  (C4_read_parse_failure_surfaced decodeNone stBase (by decide)).2.1
    "not json" (by decide) rfl

/-- Counterexample to C7: the claim says a supplied auto-increment value is
always kept with the counter left unchanged, but the source only skips
TRUTHY supplied values (`if(values[attrName]) continue`); a candidate
supplying the falsy value 0 for `id` has it overwritten with counter+1 = 1
and the counter bumped from 0 to 1. -/
theorem C7_counterexample :
    (autoIncrement stBase "users" [("id", Value.num 0)]).2.lookup "id" =
      some (Value.num 1) ∧
    (autoIncrement stBase "users"
      [("id", Value.num 0)]).1.counters "users" "id" = 1 ∧
    some (Value.num 1) ≠ some (Value.num 0) ∧ (1 : Int) ≠ 0 := by
  refine ⟨?_, ?_, by decide, by decide⟩ <;> decide

/-- C7 (amended): auto-increment assignment touches exactly the attributes
whose candidate value is absent or falsy: for every auto-increment
attribute whose supplied value is absent (or falsy — 0, "", false, null),
the collection's counter for it is incremented and the new value assigned
to the candidate; a truthy supplied value is kept and the counter is left
unchanged, as are non-auto-increment attributes. -/
theorem C7_autoIncrement_touches_absent_or_falsy
    (st : DbState) (c : String) (values : Rec) (a : String) (d : AttrDef)
    (hnd : ((st.schema c).map Prod.fst).Nodup)
    (hmem : (a, d) ∈ st.schema c) :
    (d.autoIncrement = true → truthyOpt (values.lookup a) = false →
      (autoIncrement st c values).2.lookup a =
        some (.num (st.counters c a + 1)) ∧
      (autoIncrement st c values).1.counters c a = st.counters c a + 1) ∧
    (d.autoIncrement = true → truthyOpt (values.lookup a) = true →
      (autoIncrement st c values).2.lookup a = values.lookup a ∧
      (autoIncrement st c values).1.counters c a = st.counters c a) ∧
    (d.autoIncrement = false →
      (autoIncrement st c values).2.lookup a = values.lookup a ∧
      (autoIncrement st c values).1.counters c a = st.counters c a) :=
  ⟨fun hai hfal =>
      aiFold_hit c (st.schema c) a d st values hnd hmem hai hfal,
    fun _ htr =>
      aiFold_miss c (st.schema c) a d st values hnd hmem (Or.inr htr),
    fun hoff =>
      aiFold_miss c (st.schema c) a d st values hnd hmem (Or.inl hoff)⟩

/-- Witness for C7 (amended): a truthy supplied id (7) is kept and the
counter stays 0. -/
theorem C7_witness :
    (autoIncrement stBase "users" [("id", Value.num 7)]).2.lookup "id" =
      [("id", Value.num 7)].lookup "id" ∧
    (autoIncrement stBase "users"
      [("id", Value.num 7)]).1.counters "users" "id" = 0 :=
  (C7_autoIncrement_touches_absent_or_falsy stBase "users"
    [("id", Value.num 7)] "id" ⟨false, true, none⟩ (by decide)
    (by decide)).2.1 (by decide) (by decide)

/-- C9: on a configured engine with a registered collection, an update
whose query matched zero records succeeds with an empty result list, even
when the supplied values set unique-constrained attributes: the uniqueness
re-check is skipped entirely, no record (indeed no collection) is mutated,
and a persistence request for the collection is still enqueued. -/
theorem C9_update_zero_matches_noop
    (st : DbState) (c : String) (values : Rec)
    (hfp : st.filePath ≠ "") (hreg : (st.data c).isSome = true) :
    update st c [] values = ({ st with queue := st.queue ++ [c] }, .ok []) := by
  unfold update
  rw [if_neg hfp]
  have hcond : ¬((uniqueAttrsOf st c values).length > 0 ∧
      ([] : List Nat).length > 0) := by
    intro h2
    exact absurd h2.2 (by decide)
  rw [if_neg hcond]
  unfold updateApply
  rfl

/-- Witness for C9: updating with a unique email value against an empty
match set succeeds and only enqueues a write. -/
theorem C9_witness :
    update stStrOne "users" [] [("email", Value.num 9)] =
      ({ stStrOne with queue := stStrOne.queue ++ ["users"] }, .ok []) :=
  C9_update_zero_matches_noop stStrOne "users" [("email", Value.num 9)]
    (by decide) (by decide)

/-- The single-match re-check errors are empty exactly when every unique
attribute's supplied value loosely equals the matched record's current
value. -/
theorem updateDiffErrors_eq_nil_iff (result values : Rec)
    (attrs : List String) :
    updateDiffErrors result values attrs = [] ↔
      ∀ a ∈ attrs, looseEq (result.lookup a) (values.lookup a) = true := by
  induction attrs with
  | nil => simp [updateDiffErrors]
  | cons a rest ih =>
    show ((if looseEq (result.lookup a) (values.lookup a) then []
      else [(⟨a, values.lookup a⟩ : UniqueError)]) ++
        updateDiffErrors result values rest) = [] ↔ _
    cases h : looseEq (result.lookup a) (values.lookup a)
    · simp [h]
    · simp [h, ih]

/-- One re-check error per unique attribute whose current value loosely
differs from the supplied one. -/
theorem length_updateDiffErrors (result values : Rec)
    (attrs : List String) :
    (updateDiffErrors result values attrs).length =
      attrs.countP
        (fun a => !(looseEq (result.lookup a) (values.lookup a))) := by
  induction attrs with
  | nil => rfl
  | cons a rest ih =>
    show ((if looseEq (result.lookup a) (values.lookup a) then []
      else [(⟨a, values.lookup a⟩ : UniqueError)]) ++
        updateDiffErrors result values rest).length = _
    rw [List.length_append, ih, List.countP_cons]
    cases h : looseEq (result.lookup a) (values.lookup a)
    · simp [h]
      omega
    · simp [h]

/-- Counterexample to C3: the claim requires a single-match update that
sets a unique attribute to be rejected whenever the supplied value differs
from the record's current value, but the source compares with loose
inequality (`!=`): the stored email is the string "1", the supplied value
is the number 1 — two different values — yet the update is accepted and
the record is overwritten. -/
theorem C3_counterexample :
    (update stStrOne "users" [0] [("email", Value.num 1)]).2 =
      .ok [[("email", Value.num 1)]] ∧
    (stStrOne.getData "users").getD 0 [] = [("email", Value.str "1")] ∧
    Value.str "1" ≠ Value.num 1 ∧
    (update stStrOne "users" [0]
      [("email", Value.num 1)]).1.data "users" =
      some [[("email", Value.num 1)]] :=
  ⟨by rfl, by decide, by decide, by decide⟩

/-- C3 (amended): when the update values include at least one
unique-constrained attribute and the query matched at least one record:
a match of two or more records is always rejected, whatever values are
supplied, with the state unchanged; a single matched record is accepted
exactly when every unique attribute's supplied value LOOSELY equals
(JavaScript `==`, the comparison the source performs with `!=`) the
record's current value, and otherwise rejected with one error per loosely
differing unique attribute and the state unchanged. -/
theorem C3_update_unique_recheck_loose
    (st : DbState) (c : String) (values : Rec) (indicies : List Nat)
    (hfp : st.filePath ≠ "")
    (hu : uniqueAttrsOf st c values ≠ []) :
    (indicies.length > 1 →
      update st c indicies values =
        (st, .error (.uniquenessMulti (uniqueAttrsOf st c values)))) ∧
    (∀ i, indicies = [i] →
      (updateDiffErrors ((st.getData c).getD i []) values
          (uniqueAttrsOf st c values) = [] ↔
        ∀ a ∈ uniqueAttrsOf st c values,
          looseEq (((st.getData c).getD i []).lookup a)
            (values.lookup a) = true) ∧
      ((∀ a ∈ uniqueAttrsOf st c values,
          looseEq (((st.getData c).getD i []).lookup a)
            (values.lookup a) = true) →
        update st c indicies values = updateApply st c indicies values) ∧
      (¬(∀ a ∈ uniqueAttrsOf st c values,
          looseEq (((st.getData c).getD i []).lookup a)
            (values.lookup a) = true) →
        update st c indicies values =
          (st, .error (.uniquenessDiffs
            (updateDiffErrors ((st.getData c).getD i []) values
              (uniqueAttrsOf st c values)))) ∧
        (updateDiffErrors ((st.getData c).getD i []) values
            (uniqueAttrsOf st c values)).length =
          (uniqueAttrsOf st c values).countP
            (fun a => !(looseEq (((st.getData c).getD i []).lookup a)
              (values.lookup a))))) := by
  have hattr : (uniqueAttrsOf st c values).length > 0 :=
    List.length_pos.mpr hu
  constructor
  · intro hlen
    have hc2 : (uniqueAttrsOf st c values).length > 0 ∧
        indicies.length > 0 := ⟨hattr, Nat.lt_trans Nat.zero_lt_one hlen⟩
    unfold update
    rw [if_neg hfp]
    dsimp only
    rw [if_pos hc2, if_pos hlen]
  · intro i hind
    subst hind
    have hlen1 : ([i] : List Nat).length = 1 := rfl
    have hhead : ([i] : List Nat).headD 0 = i := rfl
    have hc2 : (uniqueAttrsOf st c values).length > 0 ∧
        ([i] : List Nat).length > 0 := ⟨hattr, by rw [hlen1]; decide⟩
    have hn1 : ¬(([i] : List Nat).length > 1) := by
      rw [hlen1]
      decide
    refine ⟨updateDiffErrors_eq_nil_iff _ _ _, ?_, ?_⟩
    · intro hall
      have hnil : updateDiffErrors ((st.getData c).getD i []) values
          (uniqueAttrsOf st c values) = [] :=
        (updateDiffErrors_eq_nil_iff _ _ _).mpr hall
      have hnpos : ¬((updateDiffErrors
          ((st.getData c).getD (([i] : List Nat).headD 0) []) values
          (uniqueAttrsOf st c values)).length > 0) := by
        rw [hhead, hnil]
        decide
      unfold update
      rw [if_neg hfp]
      dsimp only
      rw [if_pos hc2, if_neg hn1, if_neg hnpos]
    · intro hnall
      have hne : updateDiffErrors ((st.getData c).getD i []) values
          (uniqueAttrsOf st c values) ≠ [] := by
        intro h2
        exact hnall ((updateDiffErrors_eq_nil_iff _ _ _).mp h2)
      have hpos : (updateDiffErrors
          ((st.getData c).getD (([i] : List Nat).headD 0) []) values
          (uniqueAttrsOf st c values)).length > 0 := by
        rw [hhead]
        exact List.length_pos.mpr hne
      refine ⟨?_, length_updateDiffErrors _ _ _⟩
      unfold update
      rw [if_neg hfp]
      dsimp only
      rw [if_pos hc2, if_neg hn1, if_pos hpos]
      rw [hhead]

/-- Witness for C3 (amended): a two-record match with a unique attribute in
the values is rejected outright with the state unchanged. -/
theorem C3_witness :
    update stStrOne "users" [0, 1] [("email", Value.str "1")] =
      (stStrOne, .error (.uniquenessMulti
        (uniqueAttrsOf stStrOne "users" [("email", Value.str "1")]))) :=
  (C3_update_unique_recheck_loose stStrOne "users"
    [("email", Value.str "1")] [0, 1] (by decide) (by decide)).1
    (by decide)

/-- A successful association-list lookup means the key is among the keys. -/
theorem mem_keys_of_lookup {β : Type} {l : List (String × β)} {k : String}
    {v : β} (h : l.lookup k = some v) : k ∈ l.map Prod.fst := by
  induction l with
  | nil => cases h
  | cons p rest ih =>
    obtain ⟨pk, pb⟩ := p
    by_cases hk : k = pk
    · subst hk
      exact List.mem_cons_self _ _
    · rw [lookup_cons_ne rest k pk pb hk] at h
      exact List.mem_cons_of_mem _ (ih h)

/-- C8: type coercion on insert is lenient — for every attribute declared
json-typed, a supplied value is replaced by its parse result when the parse
succeeds; when the parse throws, the original raw value is stored unchanged;
attributes not declared json-typed (or not declared at all) are never
altered; and the parse outcome never influences whether insert succeeds or
what the counters become — a coercion failure is never reported as an
error. -/
theorem C8_serialize_values_lenient
    (parse : Value → Option Value) (st : DbState) (c : String)
    (values : Rec) (hnd : (values.map Prod.fst).Nodup) :
    (∀ k d v w, (st.schema c).lookup k = some d → d.type = some "json" →
      values.lookup k = some v → parse v = some w →
      (serializeValues parse st c values).lookup k = some w) ∧
    (∀ k d v, (st.schema c).lookup k = some d → d.type = some "json" →
      values.lookup k = some v → parse v = none →
      (serializeValues parse st c values).lookup k = some v) ∧
    (∀ k d, (st.schema c).lookup k = some d → d.type ≠ some "json" →
      (serializeValues parse st c values).lookup k = values.lookup k) ∧
    (∀ k, (st.schema c).lookup k = none →
      (serializeValues parse st c values).lookup k = values.lookup k) ∧
    (∀ parse2 : Value → Option Value,
      (insert parse st c values).2.isOk =
        (insert parse2 st c values).2.isOk ∧
      (insert parse st c values).1.counters =
        (insert parse2 st c values).1.counters) := by
  refine ⟨?_, ?_, ?_, ?_, ?_⟩
  · intro k d v w hsk ht hv hp
    have hjson := serFold_json parse (st.schema c) (values.map Prod.fst)
      values k d v hnd (mem_keys_of_lookup hv) hsk ht hv
    rw [hp] at hjson
    exact hjson
  · intro k d v hsk ht hv hp
    have hjson := serFold_json parse (st.schema c) (values.map Prod.fst)
      values k d v hnd (mem_keys_of_lookup hv) hsk ht hv
    rw [hp] at hjson
    exact hjson
  · intro k d hsk ht
    exact serFold_nonjson parse (st.schema c) (values.map Prod.fst)
      values k d hsk ht
  · intro k hsk
    exact serFold_nodecl parse (st.schema c) (values.map Prod.fst)
      values k hsk
  · intro parse2
    unfold insert
    by_cases hfp : st.filePath = ""
    · rw [if_pos hfp, if_pos hfp]
      exact ⟨rfl, rfl⟩
    · rw [if_neg hfp, if_neg hfp]
      by_cases herr : (uniqueConstraint st c values).length > 0
      · rw [if_pos herr, if_pos herr]
        exact ⟨rfl, rfl⟩
      · rw [if_neg herr, if_neg herr]
        dsimp only
        cases hd : (autoIncrement st c values).1.data c
        · exact ⟨rfl, rfl⟩
        · exact ⟨rfl, rfl⟩

/-- Witness for C8: a json-typed attribute whose value parses is stored
parsed, one whose value does not parse is stored raw, and the non-json
attribute is untouched; either way insert reports no error. -/
theorem C8_witness :
    (serializeValues parseStub stJson "docs"
      [("meta", Value.str "7"), ("name", Value.str "n")]).lookup "meta" =
      some (Value.num 7) ∧
    (serializeValues parseStub stJson "docs"
      [("meta", Value.str "x"), ("name", Value.str "n")]).lookup "meta" =
      some (Value.str "x") ∧
    (insert parseStub stJson "docs"
      [("meta", Value.str "x")]).2.isOk =
      (insert parseNone stJson "docs"
        [("meta", Value.str "x")]).2.isOk :=
  ⟨(C8_serialize_values_lenient parseStub stJson "docs"
      [("meta", Value.str "7"), ("name", Value.str "n")] (by decide)).1
      "meta" ⟨false, false, some "json"⟩ (Value.str "7") (Value.num 7)
      (by decide) (by decide) (by decide) (by decide),
    (C8_serialize_values_lenient parseStub stJson "docs"
      [("meta", Value.str "x"), ("name", Value.str "n")] (by decide)).2.1
      "meta" ⟨false, false, some "json"⟩ (Value.str "x")
      (by decide) (by decide) (by decide) (by decide),
    ((C8_serialize_values_lenient parseStub stJson "docs"
      [("meta", Value.str "x")] (by decide)).2.2.2.2 parseNone).1⟩

/-! ### Lemmas for the auto-increment sequence claim -/

theorem insert_ok_ai_step (parse : Value → Option Value) (st : DbState)
    (c a : String) (d : AttrDef) (v : Rec) (st2 : DbState) (r : Rec)
    (hnd : ((st.schema c).map Prod.fst).Nodup)
    (hmem : (a, d) ∈ st.schema c) (hai : d.autoIncrement = true)
    (hjson : d.type ≠ some "json") (habs : v.lookup a = none)
    (h : insert parse st c v = (st2, .ok r)) :
    r.lookup a = some (.num (st.counters c a + 1)) ∧
    st2.counters c a = st.counters c a + 1 ∧
    st2.schema = st.schema ∧
    st2.data c = some (st.getData c ++ [r]) ∧
    st2.filePath = st.filePath := by
  obtain ⟨recs, hrecs, hr, hst2⟩ := insert_ok_inv parse st c v st2 r h
  have hfields := autoIncrement_fields st c v
  have hfal : truthyOpt (v.lookup a) = false := by
    rw [habs]
    rfl
  have hhit := aiFold_hit c (st.schema c) a d st v hnd hmem hai hfal
  have hsk : (st.schema c).lookup a = some d := lookup_of_mem_nodup hnd hmem
  have hsk2 : ((autoIncrement st c v).1.schema c).lookup a = some d := by
    rw [hfields.2.1]
    exact hsk
  have hra : r.lookup a = some (.num (st.counters c a + 1)) := by
    rw [hr]
    show (((autoIncrement st c v).2.map Prod.fst).foldl
      (serStep parse ((autoIncrement st c v).1.schema c))
      (autoIncrement st c v).2).lookup a = _
    rw [serFold_nonjson parse ((autoIncrement st c v).1.schema c)
      ((autoIncrement st c v).2.map Prod.fst) (autoIncrement st c v).2 a d
      hsk2 hjson]
    exact hhit.1
  refine ⟨hra, ?_, ?_, ?_, ?_⟩
  · rw [hst2]
    dsimp only
    exact hhit.2
  · rw [hst2]
    dsimp only
    exact hfields.2.1
  · rw [hst2]
    dsimp only
    show setData (autoIncrement st c v).1.data c (some (recs ++ [r])) c = _
    unfold setData
    rw [if_pos rfl]
    unfold DbState.getData
    rw [hrecs]
    rfl
  · rw [hst2]
    dsimp only
    exact hfields.2.2.1

theorem insertList_consecutive (parse : Value → Option Value)
    (c a : String) (d : AttrDef) :
    ∀ (vs : List Rec) (st : DbState),
      ((st.schema c).map Prod.fst).Nodup → (a, d) ∈ st.schema c →
      d.autoIncrement = true → d.type ≠ some "json" →
      (∀ v ∈ vs, v.lookup a = none) →
      (st.data c).isSome = true →
      (∀ e ∈ (insertList parse st c vs).2, e.isOk = true) →
      ∃ rs : List Rec,
        (insertList parse st c vs).2 = rs.map Except.ok ∧
        rs.length = vs.length ∧
        (insertList parse st c vs).1.data c =
          some (st.getData c ++ rs) ∧
        (∀ i (hi : i < rs.length),
          (rs.get ⟨i, hi⟩).lookup a =
            some (.num (st.counters c a + (i : Int) + 1))) ∧
        (insertList parse st c vs).1.counters c a =
          st.counters c a + (vs.length : Int) := by
  intro vs
  induction vs with
  | nil =>
    intro st _ _ _ _ _ hreg _
    refine ⟨[], rfl, rfl, ?_, ?_, ?_⟩
    · cases hd : st.data c with
      | none =>
        rw [hd] at hreg
        cases hreg
      | some recs =>
        show st.data c = some (st.getData c ++ [])
        unfold DbState.getData
        rw [hd]
        simp
    · intro i hi
      exact absurd hi (Nat.not_lt_zero i)
    · show st.counters c a = st.counters c a + ((0 : Nat) : Int)
      simp
  | cons v vs ih =>
    intro st hnd hmem hai hjson habs hreg hok
    rcases hins : insert parse st c v with ⟨st1, e1⟩
    have hlst : insertList parse st c (v :: vs) =
        ((insertList parse st1 c vs).1,
          e1 :: (insertList parse st1 c vs).2) := by
      show (let r := insert parse st c v;
        let rest := insertList parse r.1 c vs;
        ((rest.1, r.2 :: rest.2) : DbState × List (Except DbError Rec))) = _
      rw [hins]
    have hok1 : e1.isOk = true := by
      have hmem1 : e1 ∈ (insertList parse st c (v :: vs)).2 := by
        rw [hlst]
        exact List.mem_cons_self _ _
      exact hok e1 hmem1
    obtain ⟨r1, hr1⟩ : ∃ r1, e1 = .ok r1 := by
      cases e1 with
      | error e => exact Bool.noConfusion hok1
      | ok r => exact ⟨r, rfl⟩
    subst hr1
    obtain ⟨hra, hcnt, hsch, hdat, _⟩ :=
      insert_ok_ai_step parse st c a d v st1 r1 hnd hmem hai hjson
        (habs v (List.mem_cons_self v vs)) hins
    have hnd1 : ((st1.schema c).map Prod.fst).Nodup := by
      rw [hsch]
      exact hnd
    have hmem1 : (a, d) ∈ st1.schema c := by
      rw [hsch]
      exact hmem
    have habs1 : ∀ v2 ∈ vs, v2.lookup a = none :=
      fun v2 hv2 => habs v2 (List.mem_cons_of_mem v hv2)
    have hreg1 : (st1.data c).isSome = true := by
      rw [hdat]
      rfl
    have hok1b : ∀ e ∈ (insertList parse st1 c vs).2, e.isOk = true := by
      intro e he
      refine hok e ?_
      rw [hlst]
      exact List.mem_cons_of_mem _ he
    obtain ⟨rs, hmap, hlen, hdata, hvals, hcnts⟩ :=
      ih st1 hnd1 hmem1 hai hjson habs1 hreg1 hok1b
    refine ⟨r1 :: rs, ?_, ?_, ?_, ?_, ?_⟩
    · rw [hlst]
      dsimp only
      rw [hmap, List.map_cons]
    · rw [List.length_cons, hlen, List.length_cons]
    · rw [hlst]
      dsimp only
      rw [hdata]
      unfold DbState.getData
      rw [hdat]
      show some ((st.getData c ++ [r1]) ++ rs) =
        some ((st.data c).getD [] ++ (r1 :: rs))
      rw [List.append_assoc]
      rfl
    · intro i hi
      cases i with
      | zero =>
        show r1.lookup a =
          some (.num (st.counters c a + ((0 : Nat) : Int) + 1))
        rw [hra]
        norm_num
      | succ j =>
        have hj : j < rs.length := Nat.lt_of_succ_lt_succ hi
        show (rs.get ⟨j, hj⟩).lookup a =
          some (.num (st.counters c a + ((j + 1 : Nat) : Int) + 1))
        rw [hvals j hj, hcnt]
        exact congrArg (fun x => some (Value.num x)) (by push_cast; ring)
    · rw [hlst]
      dsimp only
      rw [hcnts, hcnt, List.length_cons]
      push_cast
      ring

/-! ### Counter monotonicity across operations -/

theorem insert_counters_mono (parse : Value → Option Value) (st : DbState)
    (c : String) (v : Rec) (c2 a2 : String) :
    st.counters c2 a2 ≤ (insert parse st c v).1.counters c2 a2 := by
  unfold insert
  by_cases h1 : st.filePath = ""
  · rw [if_pos h1]
  · rw [if_neg h1]
    by_cases h2 : (uniqueConstraint st c v).length > 0
    · rw [if_pos h2]
    · rw [if_neg h2]
      dsimp only
      cases hd : (autoIncrement st c v).1.data c
      · exact aiFold_mono c (st.schema c) st v c2 a2
      · exact aiFold_mono c (st.schema c) st v c2 a2

theorem update_counters_eq (st : DbState) (c : String) (ind : List Nat)
    (v : Rec) : (update st c ind v).1.counters = st.counters := by
  unfold update updateApply
  by_cases h1 : st.filePath = ""
  · rw [if_pos h1]
  · rw [if_neg h1]
    dsimp only
    by_cases h2 : (uniqueAttrsOf st c v).length > 0 ∧ ind.length > 0
    · rw [if_pos h2]
      by_cases h3 : ind.length > 1
      · rw [if_pos h3]
      · rw [if_neg h3]
        by_cases h4 : (updateDiffErrors ((st.getData c).getD (ind.headD 0)
            []) v (uniqueAttrsOf st c v)).length > 0
        · rw [if_pos h4]
        · rw [if_neg h4]
    · rw [if_neg h2]

theorem destroy_counters_eq (st : DbState) (c : String) (ind : List Nat) :
    (destroy st c ind).1.counters = st.counters := by
  unfold destroy
  by_cases h1 : st.filePath = ""
  · rw [if_pos h1]
  · rw [if_neg h1]

theorem drop_counters_eq (st : DbState) (c : String) (rels : List String) :
    (dropCollection st c rels).1.counters = st.counters := by
  unfold dropCollection
  by_cases h1 : st.filePath = ""
  · rw [if_pos h1]
  · rw [if_neg h1]

theorem create_counters_eq (st : DbState) (c : String) (defn : Schema) :
    (createCollection st c defn).1.counters = st.counters := by
  unfold createCollection setCollection
  by_cases h1 : st.filePath = ""
  · rw [if_pos h1]
  · rw [if_neg h1]

theorem op_counters_mono (parse : Value → Option Value) (st : DbState)
    (op : Op) (c2 a2 : String) :
    st.counters c2 a2 ≤ (applyOp parse st op).counters c2 a2 := by
  cases op with
  | insertOp c v => exact insert_counters_mono parse st c v c2 a2
  | updateOp c ind v =>
    exact le_of_eq
      (congrFun (congrFun (update_counters_eq st c ind v) c2) a2).symm
  | destroyOp c ind =>
    exact le_of_eq
      (congrFun (congrFun (destroy_counters_eq st c ind) c2) a2).symm
  | dropOp c rels =>
    exact le_of_eq
      (congrFun (congrFun (drop_counters_eq st c rels) c2) a2).symm
  | createOp c defn =>
    exact le_of_eq
      (congrFun (congrFun (create_counters_eq st c defn) c2) a2).symm

/-- C2: for a collection whose schema has an auto-increment attribute with
counter value counter₀, N sequential successful inserts each omitting that
attribute (and not json-coerced on it) return and store records carrying the
consecutive values counter₀+1 … counter₀+N in insertion order — no gaps, no
repeats — whatever the other attributes supplied; the counter equals
counter₀+N afterwards, and no operation of the surface ever decreases any
counter. -/
theorem C2_sequential_inserts_consecutive
    (parse : Value → Option Value) (st : DbState) (c a : String)
    (d : AttrDef) (vs : List Rec)
    (hnd : ((st.schema c).map Prod.fst).Nodup)
    (hmem : (a, d) ∈ st.schema c)
    (hai : d.autoIncrement = true)
    (hjson : d.type ≠ some "json")
    (habs : ∀ v ∈ vs, v.lookup a = none)
    (hreg : (st.data c).isSome = true)
    (hok : ∀ e ∈ (insertList parse st c vs).2, e.isOk = true) :
    (∃ rs : List Rec,
      (insertList parse st c vs).2 = rs.map Except.ok ∧
      rs.length = vs.length ∧
      (insertList parse st c vs).1.data c = some (st.getData c ++ rs) ∧
      (∀ i (hi : i < rs.length),
        (rs.get ⟨i, hi⟩).lookup a =
          some (.num (st.counters c a + (i : Int) + 1))) ∧
      (insertList parse st c vs).1.counters c a =
        st.counters c a + (vs.length : Int)) ∧
    (∀ (st2 : DbState) (op : Op) (c2 a2 : String),
      st2.counters c2 a2 ≤ (applyOp parse st2 op).counters c2 a2) :=
  ⟨insertList_consecutive parse c a d vs st hnd hmem hai hjson habs hreg
      hok,
    fun st2 op c2 a2 => op_counters_mono parse st2 op c2 a2⟩

/-- Witness for C2: two inserts omitting id yield the counter value 2. -/
theorem C2_witness :
    (insertList parseNone stBase "users"
      [[("email", Value.str "a")], [("email", Value.str "b")]]).1.counters
      "users" "id" = stBase.counters "users" "id" + 2 := by
  obtain ⟨rs, _, _, _, _, hcnt⟩ :=
    (C2_sequential_inserts_consecutive parseNone stBase "users" "id"
      ⟨false, true, none⟩
      [[("email", Value.str "a")], [("email", Value.str "b")]]
      (by decide) (by decide) (by decide) (by decide) (by decide)
      (by decide) (by decide)).1
  exact hcnt

end SailsDisk
